import Mathlib

/-!
Verification of the scan-and-extract core of `apple-kbd-dat-icon-extract.py`.

Bytes are modelled as natural numbers and the source buffer as a `List Nat`.
Python's clamping slice `data[a:b]` is `pySlice`. The scanner
`find_next_icon` mirrors the source's byte-by-byte `while` loop; its
recursion is driven by the exact number of remaining positions
`data.length - pos`, so the definition is structurally recursive and
kernel-computable while following the source loop step for step. The
driving `while` loop of `extract_icons` is embedded as the fuel-indexed
`extract_loop`; `run_pass` supplies fuel `data.length`, which is proved
sufficient (`extract_loop` never returns `HaltReason.fuelOut` with that
fuel).
-/

/-- The fixed 4-byte marker `b'icns'` (`ICNS_HEADER` in the source). -/
def ICNS_HEADER : List Nat := [0x69, 0x63, 0x6e, 0x73]

/-- Python's clamping slice `data[a:b]` for natural indices `a <= b`. -/
def pySlice (data : List Nat) (a b : Nat) : List Nat :=
  (data.drop a).take (b - a)

/-- Worker for the scanner: `n` is the number of positions left to try,
maintained equal to `data.length - pos` at every call. -/
def find_go (data : List Nat) : Nat → Nat → Int
  | 0, _ => -1
  | n + 1, pos =>
    if pos < data.length then
      if pySlice data pos (pos + 4) = ICNS_HEADER then ((pos : Int) + 4)
      else find_go data n (pos + 1)
    else -1

/-- The scanner `find_next_icon(data, start_pos)`: forward byte-by-byte
search for the marker from `start_pos`; returns the offset just past the
first match, or `-1` when there is none. -/
def find_next_icon (data : List Nat) (start_pos : Nat) : Int :=
  find_go data (data.length - start_pos) start_pos

/-- `struct.unpack(">I", bs)[0]`: succeeds exactly on a 4-byte input,
returning the big-endian 32-bit value; `none` mirrors `struct.error`. -/
def unpack_be32 (bs : List Nat) : Option Nat :=
  match bs with
  | [b0, b1, b2, b3] => some (((b0 * 256 + b1) * 256 + b2) * 256 + b3)
  | _ => none

/-- The three failure exits of the chunk-reading code in the loop body
(lines 87-99 of the source). -/
inductive ChunkError
  | incompleteHeader
  | invalidSize
  | oversizedChunk
deriving DecidableEq, Repr

/-- The chunk-reading steps of the loop body, factored as in the spec's
Chunk Reader: header-remainder check, big-endian length decode, bounds
check, then the slice `data[offset : offset + size]` together with the
decoded size and the next cursor value `offset + size`. -/
def read_chunk (data : List Nat) (offset : Nat) :
    Except ChunkError (Nat × List Nat × Nat) :=
  if offset + 4 > data.length then .error .incompleteHeader
  else
    match unpack_be32 (pySlice data offset (offset + 4)) with
    | none => .error .invalidSize
    | some size =>
      if offset + size > data.length then .error .oversizedChunk
      else .ok (size, pySlice data offset (offset + size), offset + size)

/-- One emitted artifact: sequential index, the offset just past the
marker, the decoded size, and the bytes written to the `.icns` file. -/
structure Icon where
  index : Nat
  offset : Nat
  size : Nat
  bytes : List Nat
deriving DecidableEq, Repr

/-- How a pass over the buffer ended. -/
inductive HaltReason
  | notFound
  | incompleteHeader
  | invalidSize
  | oversizedChunk
  | bufferExhausted
  | fuelOut
deriving DecidableEq, Repr

/-- The halt reason corresponding to each chunk-reader failure. -/
def haltErr : ChunkError → HaltReason
  | .incompleteHeader => .incompleteHeader
  | .invalidSize => .invalidSize
  | .oversizedChunk => .oversizedChunk

/-- Observable outcome of the scanning loop: the artifacts in emission
order, the final `icon_count`, the final value of the Python variable
`pos` (which is `-1` after a failed scan), the halt reason, and the
number of loop iterations executed. -/
structure LoopResult where
  icons : List Icon
  icon_count : Nat
  finalPos : Int
  halt : HaltReason
  steps : Nat
deriving DecidableEq, Repr

/-- The driving `while pos < len(data)` loop of `extract_icons`,
fuel-indexed. Each iteration scans for the marker, runs the chunk-reading
steps, and on success appends the artifact, increments `icon_count` and
advances `pos` by the decoded size, exactly as in lines 81-115 of the
source. -/
def extract_loop (data : List Nat) : Nat → Nat → Nat → List Icon → Nat → LoopResult
  | 0, pos, cnt, acc, steps =>
    if pos < data.length then ⟨acc.reverse, cnt, (pos : Int), .fuelOut, steps⟩
    else ⟨acc.reverse, cnt, (pos : Int), .bufferExhausted, steps⟩
  | fuel + 1, pos, cnt, acc, steps =>
    if pos < data.length then
      if find_next_icon data pos = -1 then
        ⟨acc.reverse, cnt, -1, .notFound, steps + 1⟩
      else
        match read_chunk data (find_next_icon data pos).toNat with
        | .error e =>
          ⟨acc.reverse, cnt, (((find_next_icon data pos).toNat : Nat) : Int),
            haltErr e, steps + 1⟩
        | .ok (size, bytes, next) =>
          extract_loop data fuel next (cnt + 1)
            (⟨cnt, (find_next_icon data pos).toNat, size, bytes⟩ :: acc) (steps + 1)
    else
      ⟨acc.reverse, cnt, (pos : Int), .bufferExhausted, steps⟩

/-- One full pass from cursor 0, with fuel `data.length` (proved
sufficient below). -/
def run_pass (data : List Nat) : LoopResult :=
  extract_loop data data.length 0 0 [] 0

/-- Abstraction of the input file as seen by the pre-scan checks of
`extract_icons`: existence, readability, and the byte contents. -/
structure InputFile where
  present : Bool
  readable : Bool
  content : List Nat
deriving DecidableEq, Repr

/-- Observable outcome of `extract_icons`: the boolean return value,
whether the scanning loop was reached, and the pass result when it was. -/
structure ExtractResult where
  ok : Bool
  scanned : Bool
  passResult : Option LoopResult
deriving DecidableEq, Repr

/-- The `extract_icons` entry point: the pre-scan checks (existence,
readability, emptiness, `len(data) < len(ICNS_HEADER)`) in source order,
then the scanning loop; the function returns `True` after the loop
regardless of which halt reason ended it. -/
def extract_icons (f : InputFile) : ExtractResult :=
  if f.present = false then ⟨false, false, none⟩
  else if f.readable = false then ⟨false, false, none⟩
  else if f.content.length = 0 then ⟨false, false, none⟩
  else if f.content.length < 4 then ⟨false, false, none⟩
  else ⟨true, true, some (run_pass f.content)⟩

/-- The 22-byte buffer of the spec's concrete scenario:
marker, size 8, 4 payload bytes, marker, size 6, 2 payload bytes. -/
def data22 : List Nat :=
  ICNS_HEADER ++ [0, 0, 0, 8] ++ [170, 187, 204, 221] ++
    ICNS_HEADER ++ [0, 0, 0, 6] ++ [238, 255]

/-- Invariant linking consecutive extracted chunks: starting from scan
position `pos`, each chunk begins at least 4 bytes further (past a marker
match), lies inside the buffer, carries exactly the slice it denotes, and
the next chunk is constrained from the cursor `offset + size`. -/
def IconsOK (data : List Nat) : Nat → List Icon → Prop
  | _, [] => True
  | pos, c :: rest =>
      pos + 4 ≤ c.offset ∧
      c.offset + c.size ≤ data.length ∧
      c.bytes = pySlice data c.offset (c.offset + c.size) ∧
      c.bytes.length = c.size ∧
      IconsOK data (c.offset + c.size) rest

lemma pySlice_length (data : List Nat) (a b : Nat) :
    (pySlice data a b).length = min (b - a) (data.length - a) := by
  simp [pySlice]

lemma marker_match_bound (data : List Nat) (p : Nat)
    (h : pySlice data p (p + 4) = ICNS_HEADER) : p + 4 ≤ data.length := by
  have hl := congrArg List.length h
  rw [pySlice_length] at hl
  simp [ICNS_HEADER] at hl
  omega

lemma find_go_spec (data : List Nat) :
    ∀ n pos, data.length ≤ pos + n →
      (find_go data n pos = -1 ∧
        ∀ p, pos ≤ p → pySlice data p (p + 4) ≠ ICNS_HEADER) ∨
      (∃ p : Nat, find_go data n pos = (p : Int) + 4 ∧ pos ≤ p ∧
        pySlice data p (p + 4) = ICNS_HEADER ∧
        ∀ q, pos ≤ q → q < p → pySlice data q (q + 4) ≠ ICNS_HEADER) := by
  intro n
  induction n with
  | zero =>
    intro pos hle
    left
    refine ⟨rfl, fun p hp hmatch => ?_⟩
    have := marker_match_bound data p hmatch
    omega
  | succ n ih =>
    intro pos hle
    by_cases hpos : pos < data.length
    · by_cases hm : pySlice data pos (pos + 4) = ICNS_HEADER
      · right
        exact ⟨pos, by simp [find_go, hpos, hm], Nat.le_refl pos, hm,
          fun q hq hlt => absurd hq (by omega)⟩
      · have hrec : find_go data (n + 1) pos = find_go data n (pos + 1) := by
          simp [find_go, hpos, hm]
        rcases ih (pos + 1) (by omega) with ⟨h1, h2⟩ | ⟨p, h1, h2, h3, h4⟩
        · left
          refine ⟨by rw [hrec]; exact h1, fun p hp hmatch => ?_⟩
          rcases Nat.eq_or_lt_of_le hp with heq | hlt
          · exact hm (heq ▸ hmatch)
          · exact h2 p hlt hmatch
        · right
          refine ⟨p, by rw [hrec]; exact h1, by omega, h3, fun q hq hlt => ?_⟩
          rcases Nat.eq_or_lt_of_le hq with heq | hlt'
          · exact heq ▸ hm
          · exact h4 q hlt' hlt
    · left
      refine ⟨by simp [find_go, hpos], fun p hp hmatch => ?_⟩
      have := marker_match_bound data p hmatch
      omega

lemma find_cases (data : List Nat) (pos : Nat) :
    (find_next_icon data pos = -1 ∧
      ∀ p, pos ≤ p → pySlice data p (p + 4) ≠ ICNS_HEADER) ∨
    (∃ p : Nat, find_next_icon data pos = (p : Int) + 4 ∧ pos ≤ p ∧
      p + 4 ≤ data.length ∧ pySlice data p (p + 4) = ICNS_HEADER ∧
      ∀ q, pos ≤ q → q < p → pySlice data q (q + 4) ≠ ICNS_HEADER) := by
  rcases find_go_spec data (data.length - pos) pos (by omega) with
    ⟨h1, h2⟩ | ⟨p, h1, h2, h3, h4⟩
  · exact Or.inl ⟨h1, h2⟩
  · exact Or.inr ⟨p, h1, h2, marker_match_bound data p h3, h3, h4⟩

lemma find_eq_offset (data : List Nat) (pos offset : Nat)
    (h : find_next_icon data pos = ((offset : Nat) : Int)) :
    ∃ p : Nat, offset = p + 4 ∧ pos ≤ p ∧ p + 4 ≤ data.length ∧
      pySlice data p (p + 4) = ICNS_HEADER := by
  rcases find_cases data pos with ⟨h1, _⟩ | ⟨p, h1, h2, h3, h4, _⟩
  · rw [h] at h1
    omega
  · rw [h] at h1
    exact ⟨p, by omega, h2, h3, h4⟩

lemma find_found_bounds (data : List Nat) (pos : Nat)
    (h : find_next_icon data pos ≠ -1) :
    4 ≤ find_next_icon data pos ∧
      find_next_icon data pos ≤ (data.length : Int) := by
  rcases find_cases data pos with ⟨h1, _⟩ | ⟨p, h1, _, h3, _, _⟩
  · exact absurd h1 h
  · rw [h1]
    omega

lemma unpack_some_length (l : List Nat) (v : Nat)
    (h : unpack_be32 l = some v) : l.length = 4 := by
  rcases l with _ | ⟨a, _ | ⟨b, _ | ⟨c, _ | ⟨d, _ | ⟨e, t⟩⟩⟩⟩⟩ <;>
    simp [unpack_be32] at h ⊢

lemma unpack_of_length_four (l : List Nat) (h : l.length = 4) :
    ∃ v, unpack_be32 l = some v := by
  rcases l with _ | ⟨a, _ | ⟨b, _ | ⟨c, _ | ⟨d, _ | ⟨e, t⟩⟩⟩⟩⟩ <;>
    simp at h
  exact ⟨_, rfl⟩

lemma unpack_header_some (data : List Nat) (offset : Nat)
    (h : offset + 4 ≤ data.length) :
    ∃ v, unpack_be32 (pySlice data offset (offset + 4)) = some v := by
  apply unpack_of_length_four
  rw [pySlice_length]
  omega

lemma unpack_some_bound (data : List Nat) (offset size : Nat)
    (h : unpack_be32 (pySlice data offset (offset + 4)) = some size) :
    offset + 4 ≤ data.length := by
  have := unpack_some_length _ _ h
  rw [pySlice_length] at this
  omega

lemma read_chunk_ok_elim (data : List Nat) (offset size next : Nat)
    (bytes : List Nat)
    (h : read_chunk data offset = .ok (size, bytes, next)) :
    offset + 4 ≤ data.length ∧
    unpack_be32 (pySlice data offset (offset + 4)) = some size ∧
    offset + size ≤ data.length ∧
    bytes = pySlice data offset (offset + size) ∧
    next = offset + size := by
  unfold read_chunk at h
  split at h
  next hgt => exact absurd h (by simp)
  next hle =>
    split at h
    next hnone => exact absurd h (by simp)
    next size2 hsome =>
      split at h
      next hbig => exact absurd h (by simp)
      next hfit =>
        simp at h
        obtain ⟨hs, hb, hn⟩ := h
        subst hs
        exact ⟨by omega, hsome, by omega, hb.symm, hn.symm⟩

lemma read_chunk_ok_intro (data : List Nat) (offset size : Nat)
    (hdec : unpack_be32 (pySlice data offset (offset + 4)) = some size)
    (hbound : offset + size ≤ data.length) :
    read_chunk data offset =
      .ok (size, pySlice data offset (offset + size), offset + size) := by
  have h4 := unpack_some_bound data offset size hdec
  unfold read_chunk
  rw [if_neg (by omega)]
  split
  next hnone =>
    rw [hdec] at hnone
    exact absurd hnone (by simp)
  next size2 hsome =>
    rw [hdec] at hsome
    have hs : size2 = size := (Option.some.inj hsome).symm
    subst hs
    rw [if_neg (by omega)]

lemma read_chunk_not_invalid (data : List Nat) (offset : Nat) :
    read_chunk data offset ≠ .error .invalidSize := by
  unfold read_chunk
  split
  next hgt => simp
  next hle =>
    split
    next hnone =>
      obtain ⟨v, hv⟩ := unpack_header_some data offset (by omega)
      rw [hnone] at hv
      exact absurd hv (by simp)
    next size2 hsome =>
      split
      · simp
      · simp

lemma extract_loop_exhausted (data : List Nat) (fuel pos cnt steps : Nat)
    (acc : List Icon) (h : ¬ pos < data.length) :
    extract_loop data fuel pos cnt acc steps =
      ⟨acc.reverse, cnt, (pos : Int), .bufferExhausted, steps⟩ := by
  cases fuel <;> (unfold extract_loop; rw [if_neg h])

lemma extract_loop_fuelOut (data : List Nat) (pos cnt steps : Nat)
    (acc : List Icon) (h : pos < data.length) :
    extract_loop data 0 pos cnt acc steps =
      ⟨acc.reverse, cnt, (pos : Int), .fuelOut, steps⟩ := by
  unfold extract_loop
  rw [if_pos h]

lemma extract_loop_step_notFound (data : List Nat) (fuel pos cnt steps : Nat)
    (acc : List Icon) (hpos : pos < data.length)
    (hfind : find_next_icon data pos = -1) :
    extract_loop data (fuel + 1) pos cnt acc steps =
      ⟨acc.reverse, cnt, -1, .notFound, steps + 1⟩ := by
  unfold extract_loop
  rw [if_pos hpos, hfind]
  simp

lemma extract_loop_step_err (data : List Nat) (fuel pos cnt steps : Nat)
    (acc : List Icon) (offset : Nat) (e : ChunkError)
    (hpos : pos < data.length)
    (hfind : find_next_icon data pos = ((offset : Nat) : Int))
    (herr : read_chunk data offset = .error e) :
    extract_loop data (fuel + 1) pos cnt acc steps =
      ⟨acc.reverse, cnt, ((offset : Nat) : Int), haltErr e, steps + 1⟩ := by
  have hne : ((offset : Nat) : Int) ≠ -1 := by omega
  unfold extract_loop
  rw [if_pos hpos, hfind, if_neg hne, Int.toNat_natCast, herr]

lemma extract_loop_step_ok (data : List Nat) (fuel pos cnt steps : Nat)
    (acc : List Icon) (offset size next : Nat) (bytes : List Nat)
    (hpos : pos < data.length)
    (hfind : find_next_icon data pos = ((offset : Nat) : Int))
    (hok : read_chunk data offset = .ok (size, bytes, next)) :
    extract_loop data (fuel + 1) pos cnt acc steps =
      extract_loop data fuel next (cnt + 1)
        (⟨cnt, offset, size, bytes⟩ :: acc) (steps + 1) := by
  have hne : ((offset : Nat) : Int) ≠ -1 := by omega
  conv_lhs => rw [extract_loop]
  rw [if_pos hpos, hfind, if_neg hne, Int.toNat_natCast, hok]

lemma iconsOK_elem (data : List Nat) :
    ∀ (ns : List Icon) (pos : Nat), IconsOK data pos ns →
      ∀ c ∈ ns, pos + 4 ≤ c.offset ∧ c.offset + c.size ≤ data.length ∧
        c.bytes = pySlice data c.offset (c.offset + c.size) ∧
        c.bytes.length = c.size := by
  intro ns
  induction ns with
  | nil =>
    intro pos _ c hc
    simp at hc
  | cons c rest ih =>
    intro pos hok d hd
    obtain ⟨h1, h2, h3, h4, h5⟩ := hok
    rw [List.mem_cons] at hd
    rcases hd with rfl | hd
    · exact ⟨h1, h2, h3, h4⟩
    · have hrest := ih (c.offset + c.size) h5 d hd
      exact ⟨by omega, hrest.2.1, hrest.2.2.1, hrest.2.2.2⟩

lemma iconsOK_pairwise (data : List Nat) :
    ∀ (ns : List Icon) (pos : Nat), IconsOK data pos ns →
      List.Pairwise (fun a b => a.offset + a.size ≤ b.offset) ns := by
  intro ns
  induction ns with
  | nil =>
    intro pos _
    exact List.Pairwise.nil
  | cons c rest ih =>
    intro pos hok
    obtain ⟨h1, h2, h3, h4, h5⟩ := hok
    refine List.Pairwise.cons ?_ (ih (c.offset + c.size) h5)
    intro b hb
    have := iconsOK_elem data rest (c.offset + c.size) h5 b hb
    omega

lemma iconsOK_chain (data : List Nat) :
    ∀ (ns : List Icon) (pos : Nat), IconsOK data pos ns →
      List.Chain' (fun a b => a.offset + a.size + 4 ≤ b.offset) ns := by
  intro ns
  induction ns with
  | nil =>
    intro pos _
    exact List.chain'_nil
  | cons c rest ih =>
    intro pos hok
    obtain ⟨h1, h2, h3, h4, h5⟩ := hok
    cases rest with
    | nil => exact List.chain'_singleton c
    | cons d rest2 =>
      have g1 := h5.1
      exact List.Chain'.cons (by omega) (ih (c.offset + c.size) h5)

lemma extract_loop_invariant (data : List Nat) :
    ∀ (fuel pos cnt steps : Nat) (acc : List Icon),
      ∃ (ns : List Icon) (k : Nat),
        (extract_loop data fuel pos cnt acc steps).icons = acc.reverse ++ ns ∧
        IconsOK data pos ns ∧
        (extract_loop data fuel pos cnt acc steps).icon_count = cnt + ns.length ∧
        (extract_loop data fuel pos cnt acc steps).steps = steps + k ∧
        k ≤ (data.length - pos + 3) / 4 ∧
        ((data.length - pos + 3) / 4 ≤ fuel →
          (extract_loop data fuel pos cnt acc steps).halt ≠ HaltReason.fuelOut) := by
  intro fuel
  induction fuel with
  | zero =>
    intro pos cnt steps acc
    by_cases hpos : pos < data.length
    · refine ⟨[], 0, ?_⟩
      rw [extract_loop_fuelOut data pos cnt steps acc hpos]
      refine ⟨by simp, trivial, by simp, by simp, by omega, ?_⟩
      intro hf
      omega
    · refine ⟨[], 0, ?_⟩
      rw [extract_loop_exhausted data 0 pos cnt steps acc hpos]
      exact ⟨by simp, trivial, by simp, by simp, by omega, fun _ => by simp⟩
  | succ fuel ih =>
    intro pos cnt steps acc
    by_cases hpos : pos < data.length
    · rcases find_cases data pos with ⟨hf1, _⟩ | ⟨p, hf1, hf2, hf3, _, _⟩
      · refine ⟨[], 1, ?_⟩
        rw [extract_loop_step_notFound data fuel pos cnt steps acc hpos hf1]
        exact ⟨by simp, trivial, by simp, by simp, by omega, fun _ => by simp⟩
      · have hfind : find_next_icon data pos = (((p + 4 : Nat) : Nat) : Int) := by
          rw [hf1]
          push_cast
          ring
        rcases hrc : read_chunk data (p + 4) with e | ⟨size, bytes, next⟩
        · refine ⟨[], 1, ?_⟩
          rw [extract_loop_step_err data fuel pos cnt steps acc (p + 4) e hpos hfind hrc]
          refine ⟨by simp, trivial, by simp, by simp, by omega, fun _ => ?_⟩
          cases e <;> simp [haltErr]
        · obtain ⟨hc1, hc2, hc3, hc4, hc5⟩ :=
            read_chunk_ok_elim data (p + 4) size next bytes hrc
          rw [extract_loop_step_ok data fuel pos cnt steps acc (p + 4) size next
            bytes hpos hfind hrc]
          obtain ⟨ns, k, g1, g2, g3, g4, g5, g6⟩ :=
            ih next (cnt + 1) (steps + 1) (⟨cnt, p + 4, size, bytes⟩ :: acc)
          refine ⟨⟨cnt, p + 4, size, bytes⟩ :: ns, k + 1, ?_, ?_, ?_, ?_, ?_, ?_⟩
          · rw [g1]
            simp
          · refine ⟨by dsimp only; omega, by dsimp only; omega,
              by dsimp only; exact hc4, ?_, ?_⟩
            · dsimp only
              rw [hc4, pySlice_length]
              omega
            · dsimp only
              rw [← hc5]
              exact g2
          · rw [g3]
            simp only [List.length_cons]
            omega
          · rw [g4]
            omega
          · have hnext : pos + 4 ≤ next := by omega
            omega
          · intro hfuel
            apply g6
            have hnext : pos + 4 ≤ next := by omega
            omega
    · refine ⟨[], 0, ?_⟩
      rw [extract_loop_exhausted data (fuel + 1) pos cnt steps acc hpos]
      exact ⟨by simp, trivial, by simp, by simp, by omega, fun _ => by simp⟩

lemma run_pass_spec (data : List Nat) :
    IconsOK data 0 (run_pass data).icons ∧
    (run_pass data).icon_count = (run_pass data).icons.length ∧
    (run_pass data).steps ≤ data.length ∧
    (run_pass data).halt ≠ HaltReason.fuelOut := by
  obtain ⟨ns, k, h1, h2, h3, h4, h5, h6⟩ :=
    extract_loop_invariant data data.length 0 0 0 []
  simp only [List.reverse_nil, List.nil_append] at h1
  unfold run_pass
  refine ⟨h1 ▸ h2, ?_, ?_, ?_⟩
  · rw [h1, h3]
    omega
  · rw [h4]
    omega
  · exact h6 (by omega)

lemma read_chunk_cases (data : List Nat) (offset : Nat) :
    (offset + 4 > data.length ∧
      read_chunk data offset = .error .incompleteHeader) ∨
    (∃ v, offset + 4 ≤ data.length ∧
      unpack_be32 (pySlice data offset (offset + 4)) = some v ∧
      ((offset + v > data.length ∧
          read_chunk data offset = .error .oversizedChunk) ∨
       (offset + v ≤ data.length ∧
          read_chunk data offset =
            .ok (v, pySlice data offset (offset + v), offset + v)))) := by
  by_cases h1 : offset + 4 > data.length
  · exact Or.inl ⟨h1, by unfold read_chunk; rw [if_pos h1]⟩
  · right
    obtain ⟨v, hv⟩ := unpack_header_some data offset (by omega)
    refine ⟨v, by omega, hv, ?_⟩
    by_cases h2 : offset + v > data.length
    · left
      refine ⟨h2, ?_⟩
      unfold read_chunk
      rw [if_neg h1]
      split
      next hnone =>
        rw [hnone] at hv
        exact absurd hv (by simp)
      next size2 hsome =>
        have hs : size2 = v := by
          rw [hv] at hsome
          exact (Option.some.inj hsome).symm
        subst hs
        rw [if_pos h2]
    · exact Or.inr ⟨by omega, read_chunk_ok_intro data offset v hv (by omega)⟩

/-- C1: Scanner contract — for every buffer and start position with
`start_pos <= len(buffer)`, `find_next_icon` returns `p + 4` where `p` is
the smallest position at or after `start_pos` whose 4-byte slice equals
the marker, returns `-1` when no such position exists, and any found
result lies between 4 and `len(buffer)`, so the search never reads past
the buffer end. -/
theorem c1_scanner_contract (data : List Nat) (start_pos : Nat)
    (h : start_pos ≤ data.length) :
    ((∀ p, start_pos ≤ p → pySlice data p (p + 4) ≠ ICNS_HEADER) →
      find_next_icon data start_pos = -1) ∧
    (∀ p : Nat, start_pos ≤ p → pySlice data p (p + 4) = ICNS_HEADER →
      (∀ q, start_pos ≤ q → q < p → pySlice data q (q + 4) ≠ ICNS_HEADER) →
      find_next_icon data start_pos = ((p : Int) + 4)) ∧
    (find_next_icon data start_pos ≠ -1 →
      4 ≤ find_next_icon data start_pos ∧
        find_next_icon data start_pos ≤ (data.length : Int)) := by
  refine ⟨?_, ?_, fun hne => find_found_bounds data start_pos hne⟩
  · intro hall
    rcases find_cases data start_pos with ⟨h1, _⟩ | ⟨p, h1, h2, h3, h4, _⟩
    · exact h1
    · exact absurd h4 (hall p h2)
  · intro p hp hm hmin
    rcases find_cases data start_pos with ⟨h1, h2⟩ | ⟨q, h1, h2, h3, h4, h5⟩
    · exact absurd hm (h2 p hp)
    · have hq : q = p := by
        by_contra hne
        rcases Nat.lt_or_ge q p with hlt | hge
        · exact hmin q h2 hlt h4
        · have hlt : p < q := by omega
          exact h5 p hp hlt hm
      rw [h1, hq]

/-- Witness for C1: on the buffer that is the marker followed by one
byte, the scanner started at 0 returns 4. -/
theorem c1_scanner_contract_witness :
    find_next_icon (ICNS_HEADER ++ [0]) 0 = ((0 : Int) + 4) :=
  (c1_scanner_contract (ICNS_HEADER ++ [0]) 0 (by decide)).2.1 0
    (by decide) (by decide) (fun q hq hlt => absurd hlt (by omega))

/-- C2: Chunk-reader failure conditions — for a scanner-produced offset,
the read fails with `incompleteHeader` exactly when `offset + 4` exceeds
the buffer length; otherwise, with `size` the decoded big-endian 32-bit
length, it fails with `oversizedChunk` exactly when `offset + size`
exceeds the buffer length; and any chunk-reader failure makes the driving
loop stop at once with that halt reason, keeping only the chunks already
accumulated. -/
theorem c2_reader_failures (data : List Nat) (start offset : Nat)
    (hscan : find_next_icon data start = ((offset : Nat) : Int)) :
    ((read_chunk data offset = .error .incompleteHeader) ↔
      offset + 4 > data.length) ∧
    (∀ size, unpack_be32 (pySlice data offset (offset + 4)) = some size →
      ((read_chunk data offset = .error .oversizedChunk) ↔
        offset + size > data.length)) ∧
    (∀ (e : ChunkError) (fuel pos cnt steps : Nat) (acc : List Icon),
      pos < data.length →
      find_next_icon data pos = ((offset : Nat) : Int) →
      read_chunk data offset = .error e →
      extract_loop data (fuel + 1) pos cnt acc steps =
        ⟨acc.reverse, cnt, ((offset : Nat) : Int), haltErr e, steps + 1⟩) := by
  refine ⟨?_, ?_, fun e fuel pos cnt steps acc hp hf he =>
    extract_loop_step_err data fuel pos cnt steps acc offset e hp hf he⟩
  · rcases read_chunk_cases data offset with ⟨h1, h2⟩ |
      ⟨v, h1, h2, ⟨h3, h4⟩ | ⟨h3, h4⟩⟩
    · exact ⟨fun _ => h1, fun _ => h2⟩
    · constructor
      · intro hh
        rw [h4] at hh
        exact absurd hh (by simp)
      · intro hh
        omega
    · constructor
      · intro hh
        rw [h4] at hh
        exact absurd hh (by simp)
      · intro hh
        omega
  · intro size hdec
    rcases read_chunk_cases data offset with ⟨h1, h2⟩ |
      ⟨v, h1, h2, ⟨h3, h4⟩ | ⟨h3, h4⟩⟩
    · have := unpack_some_bound data offset size hdec
      exact absurd h1 (by omega)
    · have hv : v = size := by
        rw [hdec] at h2
        exact (Option.some.inj h2).symm
      subst hv
      exact ⟨fun _ => h3, fun _ => h4⟩
    · have hv : v = size := by
        rw [hdec] at h2
        exact (Option.some.inj h2).symm
      subst hv
      constructor
      · intro hh
        rw [h4] at hh
        exact absurd hh (by simp)
      · intro hh
        omega

/-- Witness for C2: a marker followed by only two bytes leaves fewer than
4 bytes after the match, so the read fails with `incompleteHeader`. -/
theorem c2_reader_failures_witness :
    read_chunk (ICNS_HEADER ++ [0, 0]) 4 = .error .incompleteHeader :=
  (c2_reader_failures (ICNS_HEADER ++ [0, 0]) 0 4 (by decide)).1.mpr (by decide)

/-- C3: Round-trip containment — an accepted chunk at `offset` with
decoded length `size` is emitted as exactly `buffer[offset, offset+size)`:
its byte length equals `size`, its bytes are that slice verbatim with the
length-field bytes at its front (not stripped), and the loop continues
with `offset + size` as the new scanner start position. -/
theorem c3_round_trip (data : List Nat) (offset size next : Nat)
    (bytes : List Nat)
    (hok : read_chunk data offset = .ok (size, bytes, next)) :
    bytes = pySlice data offset (offset + size) ∧
    bytes.length = size ∧
    (4 ≤ size → bytes.take 4 = pySlice data offset (offset + 4)) ∧
    next = offset + size ∧
    (∀ (fuel pos cnt steps : Nat) (acc : List Icon), pos < data.length →
      find_next_icon data pos = ((offset : Nat) : Int) →
      extract_loop data (fuel + 1) pos cnt acc steps =
        extract_loop data fuel next (cnt + 1)
          (⟨cnt, offset, size, bytes⟩ :: acc) (steps + 1)) := by
  obtain ⟨h1, h2, h3, h4, h5⟩ := read_chunk_ok_elim data offset size next bytes hok
  refine ⟨h4, ?_, ?_, h5, ?_⟩
  · rw [h4, pySlice_length]
    omega
  · intro hge
    rw [h4]
    unfold pySlice
    rw [List.take_take]
    congr 1
    omega
  · intro fuel pos cnt steps acc hpos hfind
    exact extract_loop_step_ok data fuel pos cnt steps acc offset size next
      bytes hpos hfind hok

/-- Witness for C3: a 5-byte chunk whose first 4 bytes are its own length
field. -/
theorem c3_round_trip_witness :
    ([0, 0, 0, 5, 9] : List Nat).take 4 =
      pySlice (ICNS_HEADER ++ [0, 0, 0, 5, 9]) 4 (4 + 4) :=
  (c3_round_trip (ICNS_HEADER ++ [0, 0, 0, 5, 9]) 4 5 9
    [0, 0, 0, 5, 9] (by rfl)).2.2.1 (by omega)

/-- C4 counterexample: the claim says the reported boolean indicates
completion-by-exhaustion versus an early malformed-data halt, but a pass
halted by `incompleteHeader` and a pass that completed normally both
return `true`, so the boolean indicates nothing about the distinction. -/
theorem c4_status_counterexample :
    ∃ (f g : InputFile) (rf rg : LoopResult),
      (extract_icons f).passResult = some rf ∧
      (extract_icons g).passResult = some rg ∧
      rf.halt = HaltReason.incompleteHeader ∧
      rg.halt = HaltReason.notFound ∧
      (extract_icons f).ok = true ∧
      (extract_icons g).ok = true := by
  refine ⟨⟨true, true, ICNS_HEADER ++ [0, 0]⟩, ⟨true, true, [0, 0, 0, 0]⟩,
    run_pass (ICNS_HEADER ++ [0, 0]), run_pass [0, 0, 0, 0],
    ?_, ?_, ?_, ?_, ?_, ?_⟩ <;> decide

/-- C4 as amended: the operation reports the total count of extracted
chunks (`icon_count` equals the number of emitted artifacts), but the
returned boolean is `true` whenever scanning ran at all, whether the pass
exhausted the buffer or halted early on malformed data; it distinguishes
only pre-scan input failures. -/
theorem c4_reported_result (f : InputFile) (r : LoopResult)
    (h : (extract_icons f).passResult = some r) :
    (extract_icons f).ok = true ∧ r.icon_count = r.icons.length := by
  unfold extract_icons at h ⊢
  split at h
  next => exact absurd h (by simp)
  next h1 =>
    split at h
    next => exact absurd h (by simp)
    next h2 =>
      split at h
      next => exact absurd h (by simp)
      next h3 =>
        split at h
        next => exact absurd h (by simp)
        next h4 =>
          have hr := Option.some.inj (by simpa using h)
          rw [if_neg h1, if_neg h2, if_neg h3, if_neg h4]
          subst hr
          exact ⟨rfl, (run_pass_spec f.content).2.1⟩

/-- Witness for C4 as amended, at the concrete scenario buffer. -/
theorem c4_reported_result_witness :
    (extract_icons ⟨true, true, data22⟩).ok = true ∧
      (run_pass data22).icon_count = (run_pass data22).icons.length :=
  c4_reported_result ⟨true, true, data22⟩ (run_pass data22) (by decide)

/-- C5 counterexample: a present, readable input of exactly 4 bytes (the
marker alone) has size `<= 4`, yet the operation does not fail before
scanning — the scan runs and the call returns `true`. -/
theorem c5_precondition_counterexample :
    (⟨true, true, ICNS_HEADER⟩ : InputFile).content.length ≤ 4 ∧
    (extract_icons ⟨true, true, ICNS_HEADER⟩).scanned = true ∧
    (extract_icons ⟨true, true, ICNS_HEADER⟩).ok = true := by decide

/-- C5 as amended: an input that is missing, unreadable, or strictly
smaller than the 4-byte marker fails before scanning starts — the result
is `false`, the scan never runs, and no chunk is extracted. A 4-byte
input, contrary to the claim's `size <= 4` bound, proceeds to scanning. -/
theorem c5_input_precondition (f : InputFile)
    (h : f.present = false ∨ f.readable = false ∨ f.content.length < 4) :
    extract_icons f = ⟨false, false, none⟩ := by
  unfold extract_icons
  rcases h with h | h | h
  · rw [if_pos h]
  · by_cases h1 : f.present = false
    · rw [if_pos h1]
    · rw [if_neg h1, if_pos h]
  · by_cases h1 : f.present = false
    · rw [if_pos h1]
    · rw [if_neg h1]
      by_cases h2 : f.readable = false
      · rw [if_pos h2]
      · rw [if_neg h2]
        by_cases h3 : f.content.length = 0
        · rw [if_pos h3]
        · rw [if_neg h3, if_pos h]

/-- Witness for C5 as amended: a missing file is rejected before any
scanning. -/
theorem c5_input_precondition_witness :
    extract_icons ⟨false, true, data22⟩ = ⟨false, false, none⟩ :=
  c5_input_precondition ⟨false, true, data22⟩ (Or.inl rfl)

/-- C6: Monotonic cursor and termination — across a pass the cursor never
decreases (each chunk starts at or after the previous chunk's end), with
every decoded size at least 1 the successive `next_offset` values
strictly increase (in fact they do unconditionally), and the pass
terminates within `len(buffer)` loop iterations, never by running out of
fuel. -/
theorem c6_monotone_termination (data : List Nat)
    (hsz : ∀ c ∈ (run_pass data).icons, 1 ≤ c.size) :
    List.Chain' (fun a b => a.offset + a.size ≤ b.offset)
      (run_pass data).icons ∧
    List.Chain' (fun a b => a.offset + a.size < b.offset + b.size)
      (run_pass data).icons ∧
    (run_pass data).steps ≤ data.length ∧
    (run_pass data).halt ≠ HaltReason.fuelOut := by
  obtain ⟨hok, hcount, hsteps, hfuel⟩ := run_pass_spec data
  have hchain := iconsOK_chain data (run_pass data).icons 0 hok
  exact ⟨hchain.imp (fun hab => by omega),
    hchain.imp (fun hab => by omega), hsteps, hfuel⟩

/-- Witness for C6 at the concrete scenario buffer, whose two chunks have
sizes 8 and 6. -/
theorem c6_monotone_termination_witness :
    List.Chain' (fun a b => a.offset + a.size < b.offset + b.size)
      (run_pass data22).icons ∧ (run_pass data22).steps ≤ data22.length :=
  ⟨(c6_monotone_termination data22 (by decide)).2.1,
   (c6_monotone_termination data22 (by decide)).2.2.1⟩

/-- C7: No-overlap / no-overread — every extracted chunk satisfies
`start + length <= len(buffer)`, the byte ranges of distinct chunks are
pairwise disjoint (each ends no later than the next begins), and every
successful scanner result stays within the buffer bounds. -/
theorem c7_no_overlap (data : List Nat) :
    (∀ c ∈ (run_pass data).icons, c.offset + c.size ≤ data.length) ∧
    List.Pairwise (fun a b => a.offset + a.size ≤ b.offset)
      (run_pass data).icons ∧
    (∀ start_pos : Nat, find_next_icon data start_pos ≠ -1 →
      4 ≤ find_next_icon data start_pos ∧
        find_next_icon data start_pos ≤ (data.length : Int)) := by
  obtain ⟨hok, _, _, _⟩ := run_pass_spec data
  refine ⟨?_, iconsOK_pairwise data (run_pass data).icons 0 hok, ?_⟩
  · intro c hc
    exact (iconsOK_elem data (run_pass data).icons 0 hok c hc).2.1
  · intro s hne
    exact find_found_bounds data s hne

/-- Witness for C7 at the concrete scenario buffer. -/
theorem c7_no_overlap_witness :
    List.Pairwise (fun a b => a.offset + a.size ≤ b.offset)
      (run_pass data22).icons :=
  (c7_no_overlap data22).2.1

/-- C8 counterexample: on the 22-byte scenario buffer the pass does
extract two chunks and the cursor does end at the buffer length, but the
halt is `bufferExhausted` (the `while` condition fails at `pos = 22`, so
the scanner is never invoked again), not the claimed "not found". -/
theorem c8_halt_counterexample :
    (run_pass data22).icon_count = 2 ∧
    (run_pass data22).finalPos = (22 : Int) ∧
    (run_pass data22).halt ≠ HaltReason.notFound := by decide

/-- C8 as amended: on the 22-byte scenario buffer the pass extracts
exactly chunk 0 of 8 bytes at offsets `[4, 12)` and chunk 1 of 6 bytes at
offsets `[16, 22)`, the cursor ends at the buffer length 22, and the pass
halts normally because the cursor reached the buffer end — after chunk 1
the loop condition fails, without a further scan and without error. -/
theorem c8_concrete_scenario :
    run_pass data22 =
      ⟨[⟨0, 4, 8, [0, 0, 0, 8, 170, 187, 204, 221]⟩,
        ⟨1, 16, 6, [0, 0, 0, 6, 238, 255]⟩],
        2, 22, HaltReason.bufferExhausted, 2⟩ ∧
    data22.length = 22 := by decide

/-- C9: a decoded `chunk_size` smaller than 4 (including 0) that fits in
the buffer is accepted, not rejected: the read succeeds, the emitted
artifact has exactly `chunk_size` bytes (empty when the size is 0), and
the loop increments the chunk counter and advances the cursor by
`chunk_size`. This settles the spec's open question on minimum chunk
length in favour of acceptance. -/
theorem c9_small_chunk_accepted (data : List Nat) (offset size : Nat)
    (hdec : unpack_be32 (pySlice data offset (offset + 4)) = some size)
    (hsmall : size < 4) (hbound : offset + size ≤ data.length) :
    read_chunk data offset =
      .ok (size, pySlice data offset (offset + size), offset + size) ∧
    (pySlice data offset (offset + size)).length = size ∧
    (size = 0 → pySlice data offset (offset + size) = []) ∧
    (∀ (fuel pos cnt steps : Nat) (acc : List Icon), pos < data.length →
      find_next_icon data pos = ((offset : Nat) : Int) →
      extract_loop data (fuel + 1) pos cnt acc steps =
        extract_loop data fuel (offset + size) (cnt + 1)
          (⟨cnt, offset, size, pySlice data offset (offset + size)⟩ :: acc)
          (steps + 1)) := by
  have hok := read_chunk_ok_intro data offset size hdec hbound
  refine ⟨hok, ?_, ?_, ?_⟩
  · rw [pySlice_length]
    omega
  · intro h0
    subst h0
    unfold pySlice
    have hz : offset + 0 - offset = 0 := by omega
    rw [hz]
    exact List.take_zero _
  · intro fuel pos cnt steps acc hpos hfind
    exact extract_loop_step_ok data fuel pos cnt steps acc offset size
      (offset + size) (pySlice data offset (offset + size)) hpos hfind hok

/-- Witness for C9: a marker followed by a zero length field — the
decoded size 0 is accepted and yields an empty artifact. -/
theorem c9_small_chunk_accepted_witness :
    read_chunk (ICNS_HEADER ++ [0, 0, 0, 0]) 4 =
      .ok (0, pySlice (ICNS_HEADER ++ [0, 0, 0, 0]) 4 (4 + 0), 4 + 0) :=
  (c9_small_chunk_accepted (ICNS_HEADER ++ [0, 0, 0, 0]) 4 0 (by rfl)
    (by omega) (by decide)).1

/-- C10: the "Invalid icon size detected" branch is unreachable — once
`offset + 4 <= len(buffer)` holds, the 4-byte big-endian decode always
succeeds, the chunk reader never returns the `invalidSize` error, and no
run of the driving loop ever halts with that reason. -/
theorem c10_invalid_size_unreachable (data : List Nat) :
    (∀ offset : Nat, offset + 4 ≤ data.length →
      ∃ v, unpack_be32 (pySlice data offset (offset + 4)) = some v) ∧
    (∀ offset : Nat, read_chunk data offset ≠ .error .invalidSize) ∧
    (∀ (fuel pos cnt steps : Nat) (acc : List Icon),
      (extract_loop data fuel pos cnt acc steps).halt ≠
        HaltReason.invalidSize) := by
  refine ⟨fun offset h => unpack_header_some data offset h,
    fun offset => read_chunk_not_invalid data offset, ?_⟩
  intro fuel
  induction fuel with
  | zero =>
    intro pos cnt steps acc
    by_cases hpos : pos < data.length
    · rw [extract_loop_fuelOut data pos cnt steps acc hpos]
      simp
    · rw [extract_loop_exhausted data 0 pos cnt steps acc hpos]
      simp
  | succ fuel ih =>
    intro pos cnt steps acc
    by_cases hpos : pos < data.length
    · rcases find_cases data pos with ⟨hf1, _⟩ | ⟨p, hf1, hf2, hf3, _, _⟩
      · rw [extract_loop_step_notFound data fuel pos cnt steps acc hpos hf1]
        simp
      · have hfind : find_next_icon data pos = (((p + 4 : Nat) : Nat) : Int) := by
          rw [hf1]
          push_cast
          ring
        rcases hrc : read_chunk data (p + 4) with e | ⟨size, bytes, next⟩
        · rw [extract_loop_step_err data fuel pos cnt steps acc (p + 4) e
            hpos hfind hrc]
          have hne : e ≠ ChunkError.invalidSize := by
            intro he
            subst he
            exact read_chunk_not_invalid data (p + 4) hrc
          cases e
          · simp [haltErr]
          · exact absurd rfl hne
          · simp [haltErr]
        · rw [extract_loop_step_ok data fuel pos cnt steps acc (p + 4) size
            next bytes hpos hfind hrc]
          exact ih next (cnt + 1) (steps + 1) (⟨cnt, p + 4, size, bytes⟩ :: acc)
    · rw [extract_loop_exhausted data (fuel + 1) pos cnt steps acc hpos]
      simp

/-- Witness for C10: the decode hypothesis instantiated on the scenario
buffer at offset 4. -/
theorem c10_invalid_size_unreachable_witness :
    ∃ v, unpack_be32 (pySlice data22 4 (4 + 4)) = some v :=
  (c10_invalid_size_unreachable data22).1 4 (by decide)
